import Mathlib

/-!
# Verification of the PrusaSlic3r G-code front end (`slicer_prusa_slic3r.py`)

Shallow embedding of the layer segmenter (`parse_layers`), the first-layer
tool-change normalizer (`parse_print_settings`), the header validations
(`parse_header`) and the layer classifier / slot allocator (`filter_layers`)
of `PrusaSlic3rCodeFile`, together with theorems settling the frozen claims
about them.

Numeric values that the Python source holds as floats (Z heights, layer
thicknesses) are modelled as exact rationals `ℚ`; the machine-width subtleties
of IEEE floats play no role in any claim, which only involve small decimal
constants and exact comparisons.
-/

namespace Filaswitch

/-- A comment token, as produced by the external line classifier.
`layerMarker n z` stands for a comment matched by `LAYER_START_RE`
(`BEFORE_LAYER_CHANGE (\d+) (\d+\.*\d*)`), carrying the already-parsed
layer index and Z value.  `towerComment` stands for the plain `TOOL CHANGE`
comment inserted by the normalizer; `otherComment` is any unrecognized
comment. -/
inductive PComment where
  | layerMarker (num : Nat) (z : ℚ)
  | towerComment
  | otherComment
deriving DecidableEq, Repr

/-- A command token, abstracted to exactly the distinctions the source
consults through the external `gcode` helpers: `zMove` is a command for
which `gcode.is_z_move` is true, `toolChange t` is a command for which
`gcode.is_tool_change` matches with tool index `t` (`gcode.last_match = t`),
and `otherCmd` is any other command. -/
inductive PCmd where
  | zMove
  | toolChange (t : Nat)
  | otherCmd
deriving DecidableEq, Repr

/-- A classified G-code line: optional command part plus optional comment
part, mirroring the `(cmd, comment)` pairs returned by
`gcode.read_gcode_line`. -/
structure PLine where
  cmd : Option PCmd
  comment : Option PComment
deriving DecidableEq, Repr

instance : Inhabited PLine := ⟨⟨none, none⟩⟩

/-- `gcode.is_z_move(cmd)` of the external `gcode` helper. -/
def is_z_move : PCmd → Bool
  | .zMove => true
  | _ => false

/-- `gcode.is_tool_change(cmd)` of the external `gcode` helper, returning
the selected tool index (`gcode.last_match`) on a match and `none`
otherwise. -/
def is_tool_change : PCmd → Option Nat
  | .toolChange t => some t
  | _ => none

/-- Tool change detection for a whole line (command part only). -/
def tool_change_of (ln : PLine) : Option Nat :=
  match ln.cmd with
  | some c => is_tool_change c
  | none => none

/-- Action tags for layers: `ACT_SWITCH`, `ACT_INFILL`, `ACT_PASS` from
`layer.py`, plus `unset` for the initial `None`. -/
inductive LayerAction where
  | unset
  | switch
  | infill
  | pass
deriving DecidableEq, Repr

/-- Modelled from the spec: the `Layer` record of the external `layer.py`
(only its constructor and the fields this front end uses are missing from
the sources).  Per the spec's data model a layer carries a 0-based ordinal
index, a Z height, a thickness (`height`), its ordered line list, and the
derived classification fields, initially unset.  The constructor stores
`num`, `z` and `height` exactly as given.  The `FirstLayer` variant differs
only in carrying the start-gcode bookkeeping, which is modelled as an
explicit parameter where needed. -/
structure Layer where
  num : Nat
  z : ℚ
  height : ℚ
  lines : List PLine := []
  action : LayerAction := .unset
  tower_slots : Nat := 0
deriving DecidableEq, Repr

instance : Inhabited Layer := ⟨{ num := 0, z := 0, height := 0 }⟩

/-- `Layer.add_line`: lines are append-only during segmentation. -/
def add_line (l : Layer) (ln : PLine) : Layer :=
  { l with lines := l.lines ++ [ln] }

/-- Loop state of `PrusaSlic3rCodeFile.parse_layers`: the local variables
`prev_layer`, `prev_height`, `current_layer`, `layer_start`, `layer_num`,
`layer_z` and the accumulated `self.layers`. -/
structure ParseState where
  prev_layer : Option Layer
  prev_height : ℚ
  current_layer : Layer
  layer_start : Bool
  layer_num : Nat
  layer_z : ℚ
  layers : List Layer

/-- Initial state of `parse_layers`: `prev_layer = None`, `prev_height = 0`,
`current_layer = FirstLayer(0, 0.2, 0.2)`, `layer_start = False`,
`layer_num = 0`, `layer_z = 0`, empty layer list. -/
def init_state : ParseState :=
  { prev_layer := none
    prev_height := 0
    current_layer := { num := 0, z := mkRat 1 5, height := mkRat 1 5 }
    layer_start := false
    layer_num := 0
    layer_z := 0
    layers := [] }

/-- The `check_layer_change` phase of the loop body: a comment matched by
`LAYER_START_RE` records the candidate `(layer_num, layer_z)` pair and sets
the `layer_start` flag; any other comment (or none) changes nothing. -/
def seg_marker (s : ParseState) (ln : PLine) : ParseState :=
  match ln.comment with
  | some (.layerMarker n zv) =>
      { s with layer_num := n, layer_z := zv, layer_start := true }
  | _ => s

/-- The local `prev_z` of the transition body: Z of `prev_layer`, or `0`
when no layer has been closed yet. -/
def prev_z_of (s : ParseState) : ℚ :=
  match s.prev_layer with
  | some p => p.z
  | none => 0

/-- The local `height` of the transition body: `current_layer.z - prev_z`,
with the last non-zero thickness (`prev_height`) carried forward when that
difference is zero. -/
def new_height (s : ParseState) : ℚ :=
  if s.current_layer.z - prev_z_of s = 0 then s.prev_height
  else s.current_layer.z - prev_z_of s

/-- The layer-transition body executed when a pending layer start is
confirmed by a Z move: when `current_layer.num == 1 and layer_num == 0`
the current layer's Z is overwritten in place; otherwise the current layer
is closed and a new layer is opened at `(layer_num, layer_z)` with
thickness `new_height`. -/
def seg_transition (s : ParseState) : ParseState :=
  if s.current_layer.num = 1 ∧ s.layer_num = 0 then
    { s with current_layer := { s.current_layer with z := s.layer_z } }
  else
    { s with
        layers := s.layers ++ [s.current_layer]
        prev_layer := some s.current_layer
        prev_height := new_height s
        current_layer := { num := s.layer_num, z := s.layer_z, height := new_height s } }

/-- The command phase of the loop body: `if cmd and layer_start:` followed
by the `is_z_move` test, clearing `layer_start` and running the layer
transition on success. -/
def seg_cmd (s : ParseState) (ln : PLine) : ParseState :=
  match ln.cmd with
  | some c =>
      if s.layer_start && is_z_move c then
        seg_transition { s with layer_start := false }
      else s
  | none => s

/-- One iteration of the `for line in lines` loop of `parse_layers`:
marker phase, then command phase, then `current_layer.add_line(cmd,
comment)` on whichever layer is current afterwards. -/
def parse_layers_step (s : ParseState) (ln : PLine) : ParseState :=
  let s1 := seg_marker s ln
  let s2 := seg_cmd s1 ln
  { s2 with current_layer := add_line s2.current_layer ln }

/-- `PrusaSlic3rCodeFile.parse_layers`: fold the loop body over the line
stream and append the last open layer. -/
def parse_layers (lines : List PLine) : List Layer :=
  let s := lines.foldl parse_layers_step init_state
  s.layers ++ [s.current_layer]

/-- The Z that `parse_layers` subtracts when closing the layer at position
`i`: the Z of the layer closed before it, or 0 when it is the first layer
to be closed (`prev_layer` is still `None`). -/
def prev_z_at (ls : List Layer) (i : Nat) : ℚ :=
  if i = 0 then 0 else (ls.getD (i - 1) default).z

/-- The carried thickness in force when the layer at position `i` is
closed: the recorded thickness of that layer itself (equal to `prev_height`
at that moment), or 0 when it is the first layer to be closed
(`prev_height` is still at its initial 0). -/
def carry_at (ls : List Layer) (i : Nat) : ℚ :=
  if i = 0 then 0 else (ls.getD i default).height

/-- The thickness recurrence actually implemented by `parse_layers`: every
layer after the pre-created first one records as its thickness the
difference between the Z of the layer *preceding* it (the one being closed)
and the Z of the layer closed before that (0 when none), with the carried
thickness used instead when that difference is zero. -/
def thickness_ok (ls : List Layer) : Prop :=
  ∀ i : Nat, i + 1 < ls.length →
    (ls.getD (i + 1) default).height =
      (if (ls.getD i default).z - prev_z_at ls i = 0
       then carry_at ls i
       else (ls.getD i default).z - prev_z_at ls i)

theorem getLast?_eq_getD {α : Type} (d : α) :
    ∀ ls : List α, ls ≠ [] → ls.getLast? = some (ls.getD (ls.length - 1) d)
  | [], h => absurd rfl h
  | [a], _ => rfl
  | a :: b :: t, _ => by
    have ih := getLast?_eq_getD d (b :: t) (by simp)
    rw [List.getLast?_cons_cons, ih]
    simp [List.getD_cons_succ]

theorem prev_z_at_append (ls : List Layer) (c : Layer) (i : Nat)
    (h : i ≤ ls.length) : prev_z_at (ls ++ [c]) i = prev_z_at ls i := by
  unfold prev_z_at
  by_cases h0 : i = 0
  · rw [if_pos h0, if_pos h0]
  · rw [if_neg h0, if_neg h0, List.getD_append _ _ _ _ (by omega)]

theorem carry_at_append (ls : List Layer) (c : Layer) (i : Nat)
    (h : i < ls.length) : carry_at (ls ++ [c]) i = carry_at ls i := by
  unfold carry_at
  by_cases h0 : i = 0
  · rw [if_pos h0, if_pos h0]
  · rw [if_neg h0, if_neg h0, List.getD_append _ _ _ _ h]

theorem thickness_ok_append (ls : List Layer) (c : Layer)
    (h : thickness_ok ls)
    (h2 : 1 ≤ ls.length →
      c.height =
        (if (ls.getD (ls.length - 1) default).z - prev_z_at ls (ls.length - 1) = 0
         then carry_at ls (ls.length - 1)
         else (ls.getD (ls.length - 1) default).z - prev_z_at ls (ls.length - 1))) :
    thickness_ok (ls ++ [c]) := by
  intro i hlen
  rw [List.length_append, List.length_singleton] at hlen
  have hi : i < ls.length := by omega
  have hpz := prev_z_at_append ls c i (by omega)
  have hca := carry_at_append ls c i hi
  rcases Nat.lt_or_ge (i + 1) ls.length with hlt | hge
  · rw [List.getD_append _ _ _ _ hlt, List.getD_append _ _ _ _ hi, hpz, hca]
    exact h i hlt
  · have hieq : i + 1 = ls.length := by omega
    rw [List.getD_append_right _ _ _ _ (by omega), hieq, Nat.sub_self,
      List.getD_cons_zero]
    rw [List.getD_append _ _ _ _ hi, hpz, hca]
    have e1 : i = ls.length - 1 := by omega
    rw [e1]
    exact h2 (by omega)

theorem thickness_ok_set_last (xs : List Layer) (y y' : Layer)
    (hh : y'.height = y.height) (h : thickness_ok (xs ++ [y])) :
    thickness_ok (xs ++ [y']) := by
  intro i hlen
  rw [List.length_append, List.length_singleton] at hlen
  have hlen' : i + 1 < (xs ++ [y]).length := by
    rw [List.length_append, List.length_singleton]; omega
  have hspec := h i hlen'
  have hi : i < xs.length := by omega
  have hpz := prev_z_at_append xs y i (by omega)
  have hpz2 := prev_z_at_append xs y' i (by omega)
  have hca := carry_at_append xs y i hi
  have hca2 := carry_at_append xs y' i hi
  rcases Nat.lt_or_ge (i + 1) xs.length with hlt | hge
  · rw [List.getD_append _ _ _ _ hlt, List.getD_append _ _ _ _ hi, hpz2, hca2]
    rw [List.getD_append _ _ _ _ hlt, List.getD_append _ _ _ _ hi, hpz, hca]
      at hspec
    exact hspec
  · have hieq : i + 1 = xs.length := by omega
    rw [List.getD_append_right _ _ _ _ (by omega), hieq, Nat.sub_self,
      List.getD_cons_zero]
    rw [List.getD_append_right _ _ _ _ (by omega), hieq, Nat.sub_self,
      List.getD_cons_zero] at hspec
    rw [List.getD_append _ _ _ _ hi, hpz2, hca2]
    rw [List.getD_append _ _ _ _ hi, hpz, hca] at hspec
    rw [hh]
    exact hspec

/-- Invariant of the `parse_layers` loop relating the Python locals to the
closed-layer list: the thickness recurrence holds on closed layers plus the
open one, `prev_layer` is the most recently closed layer, and — once any
layer has been closed — `prev_height` equals the open layer's thickness. -/
def seg_inv (s : ParseState) : Prop :=
  thickness_ok (s.layers ++ [s.current_layer]) ∧
  s.prev_layer = s.layers.getLast? ∧
  (s.layers ≠ [] → s.prev_height = s.current_layer.height) ∧
  (s.layers = [] → s.prev_height = 0)

theorem seg_inv_init : seg_inv init_state := by
  refine ⟨?_, rfl, by intro h; exact absurd rfl h, fun _ => rfl⟩
  intro i hlen
  have hlen1 : (init_state.layers ++ [init_state.current_layer]).length = 1 := rfl
  omega

theorem seg_inv_marker (s : ParseState) (ln : PLine) (h : seg_inv s) :
    seg_inv (seg_marker s ln) := by
  unfold seg_marker
  rcases ln.comment with _ | cm
  · exact h
  · rcases cm with _ | _ | _ <;> exact h

theorem seg_inv_transition (s : ParseState) (h : seg_inv s) :
    seg_inv (seg_transition s) := by
  obtain ⟨hth, hprev, hph, hph0⟩ := h
  unfold seg_transition
  by_cases hn : s.current_layer.num = 1 ∧ s.layer_num = 0
  · rw [if_pos hn]
    exact ⟨thickness_ok_set_last s.layers s.current_layer _ rfl hth,
      hprev, hph, hph0⟩
  · rw [if_neg hn]
    refine ⟨?_, ?_, ?_, ?_⟩
    · refine thickness_ok_append (s.layers ++ [s.current_layer]) _ hth ?_
      intro _
      have hj : (s.layers ++ [s.current_layer]).length - 1 = s.layers.length := by
        rw [List.length_append, List.length_singleton]
        omega
      rw [hj]
      have hlast :
          (s.layers ++ [s.current_layer]).getD s.layers.length default =
            s.current_layer := by
        rw [List.getD_append_right _ _ _ _ (by omega)]
        simp
      rw [hlast]
      by_cases hne : s.layers = []
      · have h0 : s.layers.length = 0 := by rw [hne]; rfl
        rw [h0]
        have e1 : prev_z_at (s.layers ++ [s.current_layer]) 0 = 0 := rfl
        have e2 : carry_at (s.layers ++ [s.current_layer]) 0 = 0 := rfl
        rw [e1, e2]
        show new_height s = _
        unfold new_height
        have hpz : prev_z_of s = 0 := by
          unfold prev_z_of
          rw [hprev, hne]
          rfl
        rw [hpz, hph0 hne]
      · have hlen1 : s.layers.length - 1 < s.layers.length := by
          have := List.length_pos_of_ne_nil hne; omega
        have hpz2 : prev_z_at (s.layers ++ [s.current_layer]) s.layers.length =
            (s.layers.getD (s.layers.length - 1) default).z := by
          unfold prev_z_at
          rw [if_neg (by omega), List.getD_append _ _ _ _ (by omega)]
        have hca : carry_at (s.layers ++ [s.current_layer]) s.layers.length =
            s.current_layer.height := by
          unfold carry_at
          rw [if_neg (by omega), List.getD_append_right _ _ _ _ (by omega)]
          simp
        rw [hpz2, hca]
        have hpz : prev_z_of s =
            (s.layers.getD (s.layers.length - 1) default).z := by
          unfold prev_z_of
          rw [hprev, getLast?_eq_getD default s.layers hne]
        show new_height s = _
        unfold new_height
        rw [hpz, hph hne]
    · show some s.current_layer = (s.layers ++ [s.current_layer]).getLast?
      rw [List.getLast?_concat]
    · intro _
      rfl
    · intro he
      exact absurd he (by simp)

theorem seg_inv_cmd (s : ParseState) (ln : PLine) (h : seg_inv s) :
    seg_inv (seg_cmd s ln) := by
  unfold seg_cmd
  rcases ln.cmd with _ | c
  · exact h
  · by_cases hz : s.layer_start && is_z_move c
    · simp only [hz, if_true]
      exact seg_inv_transition _ h
    · simp only [hz, if_false]
      exact h

theorem seg_inv_add_line (s : ParseState) (ln : PLine) (h : seg_inv s) :
    seg_inv { s with current_layer := add_line s.current_layer ln } := by
  obtain ⟨hth, hprev, hph, hph0⟩ := h
  exact ⟨thickness_ok_set_last s.layers s.current_layer
    (add_line s.current_layer ln) rfl hth, hprev, hph, hph0⟩

theorem seg_inv_step (s : ParseState) (ln : PLine) (h : seg_inv s) :
    seg_inv (parse_layers_step s ln) :=
  seg_inv_add_line _ ln (seg_inv_cmd _ ln (seg_inv_marker s ln h))

theorem seg_inv_fold :
    ∀ (lines : List PLine) (s : ParseState), seg_inv s →
      seg_inv (lines.foldl parse_layers_step s)
  | [], _, h => h
  | ln :: rest, s, h => seg_inv_fold rest _ (seg_inv_step s ln h)

/-- C1 (amended): in the segmented layer list, every layer after the
pre-created first one — the first marker-opened layer included — records as
its thickness the Z of the layer preceding it minus the Z of the layer
closed before that (0 when none, `prev_z_at`): the delta of the layer being
*closed*, not of the newly opened layer itself; when that raw delta is
zero, the carried thickness (`carry_at`: the preceding layer's recorded
thickness, 0 before any layer has been closed) is used instead. -/
theorem parse_layers_thickness (lines : List PLine) (i : Nat)
    (h2 : i + 1 < (parse_layers lines).length) :
    ((parse_layers lines).getD (i + 1) default).height =
      (if ((parse_layers lines).getD i default).z -
          prev_z_at (parse_layers lines) i = 0
       then carry_at (parse_layers lines) i
       else ((parse_layers lines).getD i default).z -
          prev_z_at (parse_layers lines) i) :=
  (seg_inv_fold lines init_state seg_inv_init).1 i h2

/-- A marker comment line. -/
def marker_line (n : Nat) (zv : ℚ) : PLine :=
  { cmd := none, comment := some (.layerMarker n zv) }

/-- A bare Z-move command line. -/
def z_move_line : PLine := { cmd := some .zMove, comment := none }

/-- Marker/Z-move stream with markers at Z = 0.2, 0.4, 0.5. -/
def uneven_lines : List PLine :=
  [ marker_line 0 (mkRat 1 5), z_move_line
  , marker_line 1 (mkRat 2 5), z_move_line
  , marker_line 2 (mkRat 1 2), z_move_line ]

/-- C1 (counterexample): for markers at Z = 0.2, 0.4, 0.5 the layer opened
by the marker at Z_new = 0.5 — when the current layer sits at Z_cur = 0.4 —
records thickness 0.2, not Z_new − Z_cur = 0.1: a fresh layer's recorded
thickness is not the difference between its own Z and the previous layer's
Z. -/
theorem parse_layers_thickness_cex :
    ((parse_layers uneven_lines).getD 3 default).z = mkRat 1 2 ∧
    ((parse_layers uneven_lines).getD 2 default).z = mkRat 2 5 ∧
    ((parse_layers uneven_lines).getD 3 default).height = mkRat 1 5 ∧
    ((parse_layers uneven_lines).getD 3 default).height ≠
      ((parse_layers uneven_lines).getD 3 default).z -
        ((parse_layers uneven_lines).getD 2 default).z := by
  norm_num [parse_layers, uneven_lines, parse_layers_step, seg_marker, seg_cmd,
    seg_transition, prev_z_of, new_height, init_state, add_line, is_z_move,
    marker_line, z_move_line]

/-- Witness for `parse_layers_thickness` at the concrete stream
`uneven_lines` — at index 0 (the first marker-opened layer, whose delta is
taken against 0) and at index 2. -/
theorem parse_layers_thickness_wit :
    (((parse_layers uneven_lines).getD 1 default).height =
      (if ((parse_layers uneven_lines).getD 0 default).z -
          prev_z_at (parse_layers uneven_lines) 0 = 0
       then carry_at (parse_layers uneven_lines) 0
       else ((parse_layers uneven_lines).getD 0 default).z -
          prev_z_at (parse_layers uneven_lines) 0)) ∧
    (((parse_layers uneven_lines).getD 3 default).height =
      (if ((parse_layers uneven_lines).getD 2 default).z -
          prev_z_at (parse_layers uneven_lines) 2 = 0
       then carry_at (parse_layers uneven_lines) 2
       else ((parse_layers uneven_lines).getD 2 default).z -
          prev_z_at (parse_layers uneven_lines) 2)) :=
  ⟨parse_layers_thickness uneven_lines 0
    (by norm_num [parse_layers, uneven_lines, parse_layers_step, seg_marker,
      seg_cmd, seg_transition, prev_z_of, new_height, init_state, add_line,
      is_z_move, marker_line, z_move_line]),
   parse_layers_thickness uneven_lines 2
    (by norm_num [parse_layers, uneven_lines, parse_layers_step, seg_marker,
      seg_cmd, seg_transition, prev_z_of, new_height, init_state, add_line,
      is_z_move, marker_line, z_move_line])⟩

/-- Stream whose very first marker has index 0 at Z = 0.3, followed by its
confirming Z move. -/
def first_marker_lines : List PLine :=
  [ marker_line 0 (mkRat 3 10), z_move_line ]

/-- C7 (code bug, evaluation at the failing input): the pre-created first
layer is constructed as `FirstLayer(0, 0.2, 0.2)` while the special case in
`parse_layers` tests `current_layer.num == 1`, so for the very first marker
(index 0, Z = 0.3) the special case never fires: the first layer's Z stays
at its pre-created 0.2 instead of being set to 0.3, and a second layer is
opened at the marker's Z. -/
theorem parse_layers_first_marker_eval :
    (parse_layers first_marker_lines).length = 2 ∧
    ((parse_layers first_marker_lines).getD 0 default).z = mkRat 1 5 ∧
    ((parse_layers first_marker_lines).getD 1 default).z = mkRat 3 10 ∧
    ((parse_layers first_marker_lines).getD 1 default).num = 0 := by
  norm_num [parse_layers, first_marker_lines, parse_layers_step, seg_marker,
    seg_cmd, seg_transition, prev_z_of, new_height, init_state, add_line,
    is_z_move, marker_line, z_move_line]

/-!
## The layer classifier / slot allocator (`filter_layers`)
-/

/-- Modelled from the spec: `Layer.has_tool_changes()` of the external
`layer.py` — whether the layer's line list contains any tool-change
command. -/
def has_tool_changes (l : Layer) : Bool :=
  l.lines.any fun ln => (tool_change_of ln).isSome

/-- Sorting relation used for `sorted(layer_data.keys())` followed by
`zs.reverse()`: descending Z. -/
def z_desc (a b : ℚ) : Prop := b ≤ a

instance : DecidableRel z_desc := fun a b => inferInstanceAs (Decidable (b ≤ a))

instance : IsTotal ℚ z_desc := ⟨fun a b => le_total b a⟩

instance : IsTrans ℚ z_desc := ⟨fun _ _ _ h1 h2 => le_trans h2 h1⟩

/-- The distinct Z keys of the grouping dictionary, in the high-to-low
order of the slot-derivation loop (`sorted(layer_data.keys())` then
`reverse()`). -/
def zs_desc (layers : List Layer) : List ℚ :=
  ((layers.map fun l => l.z).dedup).insertionSort z_desc

/-- `layer_data[z]['layers']`: the members of the Z bucket at `z`, in
original order. -/
def bucket (layers : List Layer) (zv : ℚ) : List Layer :=
  layers.filter fun l => l.z = zv

/-- One iteration of the slot-derivation loop: given the running
`(slots, count)` state and the bucket's tool-change count `lrs`, return the
next state and the slot value recorded for this bucket
(`layer_data[z]['slots'] = slots`, executed after the promotion check). -/
def slot_step (st : Nat × Nat) (lrs : Nat) : (Nat × Nat) × Nat :=
  let count' := if st.1 < lrs then st.2 + 1 else st.2
  if 3 ≤ count' then ((lrs, 0), lrs) else ((st.1, count'), st.1)

/-- The slot-derivation loop over the high-to-low bucket tool-change
counts, from an arbitrary `(slots, count)` state, returning the recorded
per-bucket slot values. -/
def derive_slots_from : Nat × Nat → List Nat → List Nat
  | _, [] => []
  | st, r :: rest =>
      let p := slot_step st r
      p.2 :: derive_slots_from p.1 rest

/-- The slot-derivation loop of `filter_layers`, started from
`slots = 1`, `count = 0`. -/
def derive_slots (reqs : List Nat) : List Nat :=
  derive_slots_from (1, 0) reqs

/-- The `(slots, count)` state after folding the slot-derivation step over
a bucket-count list. -/
def slot_state (st : Nat × Nat) (reqs : List Nat) : Nat × Nat :=
  reqs.foldl (fun s r => (slot_step s r).1) st

/-- `lrs` per bucket: the high-to-low list of per-bucket tool-change layer
counts. -/
def required_counts (layers : List Layer) : List Nat :=
  (zs_desc layers).map fun zv => (bucket layers zv).countP has_tool_changes

/-- The recorded `layer_data[z]['slots']` values, aligned with
`zs_desc`. -/
def bucket_slots (layers : List Layer) : List Nat :=
  derive_slots (required_counts layers)

/-- First tagging pass over a bucket: every member records the bucket's
slot count in `tower_slots`, and members with tool changes are tagged
`ACT_SWITCH`. -/
def tag_switch (slots : Nat) (ls : List Layer) : List Layer :=
  ls.map fun l =>
    { l with
        tower_slots := slots
        action := if has_tool_changes l then .switch else l.action }

/-- Second tagging pass over a bucket: members without tool changes are
tagged `ACT_INFILL` while `slots_filled < slots`, incrementing
`slots_filled`, and `ACT_PASS` afterwards. -/
def tag_fill (slots : Nat) : Nat → List Layer → List Layer
  | _, [] => []
  | filled, l :: rest =>
      if has_tool_changes l then l :: tag_fill slots filled rest
      else if filled < slots then
        { l with action := .infill } :: tag_fill slots (filled + 1) rest
      else
        { l with action := .pass } :: tag_fill slots filled rest

/-- Tagging of one Z bucket: buckets whose recorded slot count is 0 are
skipped (`continue`); otherwise the switch pass runs with `slots_filled`
ending at the bucket's tool-change count, then the fill pass. -/
def tag_bucket (slots : Nat) (ls : List Layer) : List Layer :=
  if slots = 0 then ls
  else
    let ls1 := tag_switch slots ls
    tag_fill slots (ls1.countP has_tool_changes) ls1

/-- Sorting relation for the final `sorted(layers, key=lambda x: x.num)`:
ascending layer ordinal. -/
def num_asc (a b : Layer) : Prop := a.num ≤ b.num

instance : DecidableRel num_asc := fun a b => inferInstanceAs (Decidable (a.num ≤ b.num))

instance : IsTotal Layer num_asc := ⟨fun a b => Nat.le_total a.num b.num⟩

instance : IsTrans Layer num_asc := ⟨fun _ _ _ => Nat.le_trans⟩

/-- `PrusaSlic3rCodeFile.filter_layers`: group the layers into Z buckets,
derive per-bucket slot counts scanning buckets from highest to lowest Z,
tag every bucket's members (the tagging loop runs over the re-reversed,
ascending key list), pack the tagged buckets back into one list and sort it
by original layer ordinal. -/
def filter_layers (layers : List Layer) : List Layer :=
  let zsD := zs_desc layers
  let slotsList := bucket_slots layers
  let tagged := ((zsD.zip slotsList).reverse.map
    fun p => tag_bucket p.2 (bucket layers p.1)).flatten
  tagged.insertionSort num_asc

/-- A line holding a tool-change command. -/
def tool_line : PLine := { cmd := some (.toolChange 1), comment := none }

/-- A layer with one tool-change line. -/
def switch_layer (n : Nat) (zv : ℚ) : Layer :=
  { num := n, z := zv, height := mkRat 1 5, lines := [tool_line] }

/-- A layer with no tool-change lines. -/
def plain_layer (n : Nat) (zv : ℚ) : Layer :=
  { num := n, z := zv, height := mkRat 1 5 }

/-- Layers realizing per-bucket tool-change counts `[1, 2, 2, 2, 1]` over
the descending Z keys `[5, 4, 3, 2, 1]`. -/
def spike_train_layers : List Layer :=
  [ switch_layer 0 1
  , switch_layer 1 2, switch_layer 2 2
  , switch_layer 3 3, switch_layer 4 3
  , switch_layer 5 4, switch_layer 6 4
  , switch_layer 7 5 ]

/-- C4: for Z buckets (high to low) with required tool-change counts
`[1, 2, 2, 2, 1]`, starting from `slots = 1` and `count = 0`, the first two
exceedances only build the streak, the third promotes `slots` to 2, and the
recorded per-bucket slot counts are `[1, 1, 1, 2, 2]`. -/
theorem slot_promotion_example :
    zs_desc spike_train_layers = [5, 4, 3, 2, 1] ∧
    required_counts spike_train_layers = [1, 2, 2, 2, 1] ∧
    bucket_slots spike_train_layers = [1, 1, 1, 2, 2] := by
  norm_num [zs_desc, required_counts, bucket_slots, derive_slots,
    derive_slots_from, slot_step, bucket, has_tool_changes, tool_change_of,
    is_tool_change, spike_train_layers, switch_layer, tool_line,
    List.insertionSort, List.orderedInsert, List.dedup, z_desc,
    List.pwFilter, List.countP, List.countP.go, List.filter]

/-- Whether some window of three consecutive entries of `reqs` all exceed
`bound`. -/
def has_three_consecutive_exceeding (bound : Nat) (reqs : List Nat) : Bool :=
  (List.range reqs.length).any fun i =>
    decide (i + 2 < reqs.length) && decide (bound < reqs.getD i 0) &&
    decide (bound < reqs.getD (i + 1) 0) && decide (bound < reqs.getD (i + 2) 0)

/-- Layers realizing per-bucket tool-change counts `[2, 1, 2, 1, 2]` over
the descending Z keys `[5, 4, 3, 2, 1]`: isolated spikes, never two (let
alone three) consecutive buckets exceeding the running slot value 1. -/
def isolated_spike_layers : List Layer :=
  [ switch_layer 0 1, switch_layer 1 1
  , switch_layer 2 2
  , switch_layer 3 3, switch_layer 4 3
  , switch_layer 5 4
  , switch_layer 6 5, switch_layer 7 5 ]

/-- C2 (counterexample): with required counts `[2, 1, 2, 1, 2]` no three
consecutive buckets exceed the running slots value (which stays 1 up to the
last bucket, as the recorded prefix `[1, 1, 1, 1, …]` shows), yet the slot
count is still promoted to 2 at the fifth bucket: the streak counter is
cumulative, not consecutive, because it is never reset on a non-exceeding
bucket. -/
theorem slot_promotion_nonconsec_cex :
    required_counts isolated_spike_layers = [2, 1, 2, 1, 2] ∧
    has_three_consecutive_exceeding 1 (required_counts isolated_spike_layers) = false ∧
    bucket_slots isolated_spike_layers = [1, 1, 1, 1, 2] ∧
    (bucket_slots isolated_spike_layers).getD 4 0 ≠ 1 := by
  norm_num [zs_desc, required_counts, bucket_slots, derive_slots,
    derive_slots_from, slot_step, bucket, has_tool_changes, tool_change_of,
    is_tool_change, isolated_spike_layers, switch_layer, tool_line,
    List.insertionSort, List.orderedInsert, List.dedup, z_desc,
    List.pwFilter, List.countP, List.countP.go, List.filter,
    has_three_consecutive_exceeding, List.range, List.range.loop]

theorem derive_slots_from_no_promotion :
    ∀ (reqs : List Nat) (count : Nat),
      count + reqs.countP (fun r => decide (1 < r)) < 3 →
      derive_slots_from (1, count) reqs = reqs.map fun _ => 1
  | [], _, _ => rfl
  | r :: rest, count, h => by
    rw [List.countP_cons] at h
    by_cases hr : 1 < r
    · have hd : decide (1 < r) = true := decide_eq_true hr
      rw [hd] at h
      simp at h
      have hc : ¬ 3 ≤ count + 1 := by omega
      have hstep : slot_step (1, count) r = ((1, count + 1), 1) := by
        unfold slot_step
        dsimp only
        rw [if_pos hr, if_neg hc]
      unfold derive_slots_from
      rw [hstep, List.map_cons]
      exact congrArg _ (derive_slots_from_no_promotion rest (count + 1) (by omega))
    · have hd : decide (1 < r) = false := decide_eq_false hr
      rw [hd] at h
      simp at h
      have hc : ¬ 3 ≤ count := by omega
      have hstep : slot_step (1, count) r = ((1, count), 1) := by
        unfold slot_step
        dsimp only
        rw [if_neg hr, if_neg hc]
      unfold derive_slots_from
      rw [hstep, List.map_cons]
      exact congrArg _ (derive_slots_from_no_promotion rest count (by omega))

/-- C2 (amended): promotion needs three *cumulative* exceedances since the
last promotion — the streak counter is not reset by intervening
non-exceeding buckets — so a bucket sequence with at most two exceeding
buckets in total never increases the slots value (every bucket records 1),
while three exceedances promote even when they are isolated spikes. -/
theorem slot_promotion_cumulative (reqs : List Nat)
    (h : reqs.countP (fun r => decide (1 < r)) ≤ 2) :
    derive_slots reqs = reqs.map fun _ => 1 :=
  derive_slots_from_no_promotion reqs 0 (by omega)

/-- Witness for `slot_promotion_cumulative`: two isolated exceedances,
`[2, 1, 2]`, leave every recorded slot count at 1. -/
theorem slot_promotion_cumulative_wit :
    derive_slots [2, 1, 2] = List.map (fun _ => 1) [2, 1, 2] :=
  slot_promotion_cumulative [2, 1, 2] (by decide)

/-- Layers realizing per-bucket tool-change counts `[2, 2, 2]` over the
descending Z keys `[3, 2, 1]`. -/
def triple_exceed_layers : List Layer :=
  [ switch_layer 0 1, switch_layer 1 1
  , switch_layer 2 2, switch_layer 3 2
  , switch_layer 4 3, switch_layer 5 3 ]

/-- C3 (counterexample): with required counts `[2, 2, 2]` the third bucket
completes the streak and promotes `slots` to 2; the running slots value
before that bucket is still 1, but the bucket records the *promoted* value
2, not the pre-promotion value 1 as the claim states. -/
theorem slot_assignment_cex :
    required_counts triple_exceed_layers = [2, 2, 2] ∧
    (slot_state (1, 0) (List.take 2 (required_counts triple_exceed_layers))).1 = 1 ∧
    bucket_slots triple_exceed_layers = [1, 1, 2] ∧
    (bucket_slots triple_exceed_layers).getD 2 0 ≠ 1 := by
  norm_num [zs_desc, required_counts, bucket_slots, derive_slots,
    derive_slots_from, slot_step, slot_state, bucket, has_tool_changes,
    tool_change_of, is_tool_change, triple_exceed_layers, switch_layer,
    tool_line, List.insertionSort, List.orderedInsert, List.dedup, z_desc,
    List.pwFilter, List.countP, List.countP.go, List.filter]

theorem slot_step_records_next_state (st : Nat × Nat) (r : Nat) :
    (slot_step st r).2 = (slot_step st r).1.1 := by
  unfold slot_step
  dsimp only
  by_cases hc : 3 ≤ (if st.1 < r then st.2 + 1 else st.2)
  · rw [if_pos hc]
  · rw [if_neg hc]

theorem derive_slots_from_records_post_state :
    ∀ (reqs : List Nat) (st : Nat × Nat) (i : Nat), i < reqs.length →
      (derive_slots_from st reqs).getD i 0 =
        (slot_state st (reqs.take (i + 1))).1
  | [], _, i, h => absurd h (by simp)
  | r :: rest, st, 0, _ => by
    unfold derive_slots_from
    rw [List.getD_cons_zero, slot_step_records_next_state]
    rfl
  | r :: rest, st, i + 1, h => by
    unfold derive_slots_from
    rw [List.getD_cons_succ]
    rw [derive_slots_from_records_post_state rest (slot_step st r).1 i
      (by simpa using Nat.lt_of_succ_lt_succ h)]
    rfl

/-- C3 (amended): each Z bucket records the slots value as it stands
*after* the promotion check for that bucket — the state reached by folding
the slot step over the buckets up to and including it — so a promoting
bucket itself already records the newly promoted value, which then also
applies to the subsequent, lower-Z buckets. -/
theorem slot_value_post_promotion (reqs : List Nat) (i : Nat)
    (h : i < reqs.length) :
    (derive_slots reqs).getD i 0 = (slot_state (1, 0) (reqs.take (i + 1))).1 :=
  derive_slots_from_records_post_state reqs (1, 0) i h

/-- Witness for `slot_value_post_promotion` on `[0, 2, 2, 2]` at the
promoting index 3. -/
theorem slot_value_post_promotion_wit :
    (derive_slots [0, 2, 2, 2]).getD 3 0 =
      (slot_state (1, 0) (List.take 4 [0, 2, 2, 2])).1 :=
  slot_value_post_promotion [0, 2, 2, 2] 3 (by decide)

/-!
## Content and order of the filtered layer list
-/

/-- The identity fields of a layer, unaffected by tagging. -/
def layer_key (l : Layer) : Nat × ℚ := (l.num, l.z)

theorem layer_key_tag_switch (s : Nat) (ls : List Layer) :
    (tag_switch s ls).map layer_key = ls.map layer_key := by
  unfold tag_switch
  rw [List.map_map]
  exact List.map_congr_left fun a _ => rfl

theorem layer_key_tag_fill (s : Nat) :
    ∀ (filled : Nat) (ls : List Layer),
      (tag_fill s filled ls).map layer_key = ls.map layer_key
  | _, [] => rfl
  | filled, l :: rest => by
    unfold tag_fill
    by_cases ht : has_tool_changes l = true
    · rw [if_pos ht, List.map_cons, List.map_cons,
        layer_key_tag_fill s filled rest]
    · rw [if_neg ht]
      by_cases hf : filled < s
      · rw [if_pos hf, List.map_cons, List.map_cons,
          layer_key_tag_fill s (filled + 1) rest]
        rfl
      · rw [if_neg hf, List.map_cons, List.map_cons,
          layer_key_tag_fill s filled rest]
        rfl

theorem layer_key_tag_bucket (s : Nat) (ls : List Layer) :
    (tag_bucket s ls).map layer_key = ls.map layer_key := by
  unfold tag_bucket
  by_cases hs : s = 0
  · rw [if_pos hs]
  · rw [if_neg hs]
    dsimp only
    rw [layer_key_tag_fill, layer_key_tag_switch]

theorem tag_switch_action (s : Nat) (ls : List Layer) :
    ∀ l ∈ tag_switch s ls, has_tool_changes l = true → l.action = .switch := by
  intro l hl ht
  unfold tag_switch at hl
  rw [List.mem_map] at hl
  obtain ⟨a, _, rfl⟩ := hl
  have ht' : has_tool_changes a = true := ht
  show (if has_tool_changes a then LayerAction.switch else a.action) = _
  rw [if_pos ht']

theorem tag_fill_tagged (s : Nat) :
    ∀ (filled : Nat) (ls : List Layer),
      (∀ l ∈ ls, has_tool_changes l = true → l.action = .switch) →
      ∀ l ∈ tag_fill s filled ls, ¬ l.action = .unset
  | _, [], _, l, hl => by simp [tag_fill] at hl
  | filled, a :: rest, hsw, l, hl => by
    unfold tag_fill at hl
    by_cases ht : has_tool_changes a = true
    · rw [if_pos ht] at hl
      rcases List.mem_cons.mp hl with h | h
      · rw [h, hsw a (List.mem_cons_self a rest) ht]
        exact fun hc => LayerAction.noConfusion hc
      · exact tag_fill_tagged s filled rest
          (fun x hx => hsw x (List.mem_cons_of_mem a hx)) l h
    · rw [if_neg ht] at hl
      by_cases hf : filled < s
      · rw [if_pos hf] at hl
        rcases List.mem_cons.mp hl with h | h
        · subst h
          exact fun hc => LayerAction.noConfusion hc
        · exact tag_fill_tagged s (filled + 1) rest
            (fun x hx => hsw x (List.mem_cons_of_mem a hx)) l h
      · rw [if_neg hf] at hl
        rcases List.mem_cons.mp hl with h | h
        · subst h
          exact fun hc => LayerAction.noConfusion hc
        · exact tag_fill_tagged s filled rest
            (fun x hx => hsw x (List.mem_cons_of_mem a hx)) l h

theorem tag_bucket_tagged (s : Nat) (hs : ¬ s = 0) (ls : List Layer) :
    ∀ l ∈ tag_bucket s ls, ¬ l.action = .unset := by
  intro l hl
  unfold tag_bucket at hl
  rw [if_neg hs] at hl
  exact tag_fill_tagged s _ _ (tag_switch_action s ls) l hl

theorem derive_slots_from_length :
    ∀ (reqs : List Nat) (st : Nat × Nat),
      (derive_slots_from st reqs).length = reqs.length
  | [], _ => rfl
  | r :: rest, st => by
    unfold derive_slots_from
    rw [List.length_cons, List.length_cons, derive_slots_from_length rest _]

theorem derive_slots_from_pos :
    ∀ (reqs : List Nat) (st : Nat × Nat), 1 ≤ st.1 → st.2 < 3 →
      ∀ v ∈ derive_slots_from st reqs, 1 ≤ v
  | [], _, _, _, v, hv => by simp [derive_slots_from] at hv
  | r :: rest, st, h1, h2, v, hv => by
    unfold derive_slots_from at hv
    by_cases hr : st.1 < r
    · by_cases hc : 3 ≤ st.2 + 1
      · have hstep : slot_step st r = ((r, 0), r) := by
          unfold slot_step
          dsimp only
          rw [if_pos hr, if_pos hc]
        rw [hstep] at hv
        rcases List.mem_cons.mp hv with h | h
        · subst h; omega
        · exact derive_slots_from_pos rest (r, 0) (by omega) (by omega) v h
      · have hstep : slot_step st r = ((st.1, st.2 + 1), st.1) := by
          unfold slot_step
          dsimp only
          rw [if_pos hr, if_neg hc]
        rw [hstep] at hv
        dsimp only at hv
        rcases List.mem_cons.mp hv with h | h
        · subst h; exact h1
        · exact derive_slots_from_pos rest (st.1, st.2 + 1) h1 (by omega) v h
    · have hc : ¬ 3 ≤ st.2 := by omega
      have hstep : slot_step st r = ((st.1, st.2), st.1) := by
        unfold slot_step
        dsimp only
        rw [if_neg hr, if_neg hc]
      rw [hstep] at hv
      dsimp only at hv
      rcases List.mem_cons.mp hv with h | h
      · subst h; exact h1
      · exact derive_slots_from_pos rest (st.1, st.2) h1 h2 v h

theorem bucket_join_perm :
    ∀ (zs : List ℚ) (layers : List Layer), zs.Nodup →
      (∀ l ∈ layers, l.z ∈ zs) →
      List.Perm ((zs.map fun zv => bucket layers zv).flatten) layers
  | [], layers, _, hcov => by
    cases layers with
    | nil => exact List.Perm.refl _
    | cons a t => exact absurd (hcov a (List.mem_cons_self a t)) (by simp)
  | zv :: zs, layers, hnd, hcov => by
    rw [List.map_cons, List.flatten_cons]
    obtain ⟨hz, hnd'⟩ := List.nodup_cons.mp hnd
    have hmapeq : (zs.map fun z2 => bucket layers z2) =
        zs.map fun z2 => bucket (layers.filter fun l => ! decide (l.z = zv)) z2 := by
      refine List.map_congr_left fun z2 hz2 => ?_
      have hne : ¬ z2 = zv := fun he => hz (he ▸ hz2)
      unfold bucket
      rw [List.filter_filter]
      refine (List.filter_congr fun l _ => ?_).symm
      by_cases hl : l.z = z2
      · simp [hl, hne]
      · simp [hl]
    rw [hmapeq]
    have hperm := bucket_join_perm zs (layers.filter fun l => ! decide (l.z = zv))
      hnd'
      (by
        intro l hl
        rw [List.mem_filter] at hl
        rcases List.mem_cons.mp (hcov l hl.1) with h | h
        · exact absurd h (by simpa using hl.2)
        · exact h)
    refine (hperm.append_left _).trans ?_
    exact List.filter_append_perm _ layers

theorem zs_desc_nodup (layers : List Layer) : (zs_desc layers).Nodup :=
  (List.perm_insertionSort z_desc _).symm.nodup
    (List.nodup_dedup (layers.map fun l => l.z))

theorem mem_zs_desc (layers : List Layer) (l : Layer) (hl : l ∈ layers) :
    l.z ∈ zs_desc layers := by
  unfold zs_desc
  rw [(List.perm_insertionSort z_desc _).mem_iff, List.mem_dedup]
  exact List.mem_map_of_mem _ hl

theorem filter_layers_key_perm (layers : List Layer) :
    List.Perm ((filter_layers layers).map layer_key) (layers.map layer_key) := by
  unfold filter_layers
  refine ((List.perm_insertionSort num_asc _).map layer_key).trans ?_
  rw [List.map_flatten, List.map_map]
  simp only [Function.comp_def]
  rw [List.map_congr_left
    (fun (p : ℚ × Nat) (_ : p ∈ ((zs_desc layers).zip (bucket_slots layers)).reverse) =>
      layer_key_tag_bucket p.2 (bucket layers p.1))]
  refine (List.Perm.flatten ((List.reverse_perm _).map _)).trans ?_
  have hlen : (zs_desc layers).length ≤ (bucket_slots layers).length := by
    unfold bucket_slots derive_slots
    rw [derive_slots_from_length]
    unfold required_counts
    rw [List.length_map]
  have hzip : ((zs_desc layers).zip (bucket_slots layers)).map
      (fun p => (bucket layers p.1).map layer_key) =
      (zs_desc layers).map fun zv => (bucket layers zv).map layer_key := by
    conv_rhs => rw [← List.map_fst_zip (zs_desc layers) (bucket_slots layers) hlen]
    rw [List.map_map]
    simp only [Function.comp_def]
  rw [hzip]
  rw [show ((zs_desc layers).map fun zv => (bucket layers zv).map layer_key) =
      ((zs_desc layers).map fun zv => bucket layers zv).map (List.map layer_key) from
    (List.map_map _ _ _).symm]
  rw [← List.map_flatten]
  exact (bucket_join_perm (zs_desc layers) layers (zs_desc_nodup layers)
    (fun l hl => mem_zs_desc layers l hl)).map layer_key

theorem filter_layers_tagged (layers : List Layer) :
    ∀ l ∈ filter_layers layers, ¬ l.action = .unset := by
  intro l hl
  unfold filter_layers at hl
  rw [(List.perm_insertionSort num_asc _).mem_iff, List.mem_flatten] at hl
  obtain ⟨bkt, hb, hlb⟩ := hl
  rw [List.mem_map] at hb
  obtain ⟨p, hp, rfl⟩ := hb
  rw [List.mem_reverse] at hp
  have hsnd : p.2 ∈ bucket_slots layers := (List.of_mem_zip hp).2
  have hpos : 1 ≤ p.2 :=
    derive_slots_from_pos _ (1, 0) (by omega) (by omega) p.2 hsnd
  exact tag_bucket_tagged p.2 (by omega) (bucket layers p.1) l hlb

/-- C10: slot derivation starts at 1 and only ever replaces `slots` by a
strictly larger required count, so every recorded per-bucket slot count is
at least 1 (the `slots == 0` skip branch of the tagging pass is
unreachable), every layer of the filtered output carries an action tag, and
the filtered output contains exactly the segmented layers (as a
permutation of their identity fields), not a strict subset. -/
theorem slots_positive_all_tagged (layers : List Layer) :
    ((bucket_slots layers).all fun v => decide (1 ≤ v)) = true ∧
    ((filter_layers layers).all fun l =>
      decide (¬ l.action = LayerAction.unset)) = true ∧
    List.Perm ((filter_layers layers).map layer_key) (layers.map layer_key) :=
  ⟨List.all_eq_true.mpr fun v hv =>
      decide_eq_true (derive_slots_from_pos _ (1, 0) (by omega) (by omega) v hv),
   List.all_eq_true.mpr fun l hl =>
      decide_eq_true (filter_layers_tagged layers l hl),
   filter_layers_key_perm layers⟩

/-- A two-layer height with one switch layer and one plain layer. -/
def small_pair_layers : List Layer :=
  [ switch_layer 0 1, plain_layer 1 1 ]

/-- Witness for `slots_positive_all_tagged` at a concrete two-layer
input. -/
theorem slots_positive_all_tagged_wit :
    ((bucket_slots small_pair_layers).all fun v => decide (1 ≤ v)) = true ∧
    ((filter_layers small_pair_layers).all fun l =>
      decide (¬ l.action = LayerAction.unset)) = true ∧
    List.Perm ((filter_layers small_pair_layers).map layer_key)
      (small_pair_layers.map layer_key) :=
  slots_positive_all_tagged small_pair_layers

/-- C9 (amended): the final filtered list is all (tagged) layers re-sorted
ascending by original layer ordinal — non-decreasing in general, and
strictly increasing in ordinal whenever the segmented layers' ordinals are
pairwise distinct. -/
theorem filtered_sorted_by_ordinal (layers : List Layer) :
    List.Sorted num_asc (filter_layers layers) ∧
    ((layers.map fun l => l.num).Nodup →
      List.Pairwise (fun a b : Layer => a.num < b.num) (filter_layers layers)) := by
  constructor
  · exact List.sorted_insertionSort num_asc _
  · intro hnd
    have hnums : List.Perm ((filter_layers layers).map fun l => l.num)
        (layers.map fun l => l.num) := by
      have h := (filter_layers_key_perm layers).map Prod.fst
      rw [List.map_map, List.map_map] at h
      exact h
    have hnd' : ((filter_layers layers).map fun l => l.num).Nodup :=
      hnums.symm.nodup hnd
    have hpw : List.Pairwise (fun a b : Layer => ¬ a.num = b.num)
        (filter_layers layers) := List.pairwise_map.mp hnd'
    have hsorted : List.Pairwise num_asc (filter_layers layers) :=
      List.sorted_insertionSort num_asc _
    exact (hsorted.and hpw).imp fun hab => lt_of_le_of_ne hab.1 hab.2

/-- Two plain layers with distinct ordinals at one Z height. -/
def distinct_ordinal_layers : List Layer :=
  [ switch_layer 2 1, plain_layer 1 1 ]

/-- Witness for `filtered_sorted_by_ordinal` at a concrete input with
pairwise distinct ordinals. -/
theorem filtered_sorted_by_ordinal_wit :
    List.Sorted num_asc (filter_layers distinct_ordinal_layers) ∧
    List.Pairwise (fun a b : Layer => a.num < b.num)
      (filter_layers distinct_ordinal_layers) :=
  ⟨(filtered_sorted_by_ordinal distinct_ordinal_layers).1,
   (filtered_sorted_by_ordinal distinct_ordinal_layers).2 (by decide)⟩

/-- Two layers sharing ordinal 0 — exactly what segmentation produces for
the first marker (see `parse_layers_first_marker_eval`). -/
def dup_ordinal_layers : List Layer :=
  [ plain_layer 0 (mkRat 1 5), plain_layer 0 (mkRat 3 10) ]

/-- C9 (counterexample): with two layers of ordinal 0 (as segmentation
itself produces, both the pre-created first layer and the layer opened by
marker 0 carry ordinal 0), the filtered list's ordinals are `[0, 0]`: the
output is sorted non-decreasingly but is not strictly increasing in
ordinal. -/
theorem filtered_sorted_cex :
    ((filter_layers dup_ordinal_layers).map fun l => l.num) = [0, 0] ∧
    ¬ List.Pairwise (fun a b : Layer => a.num < b.num)
      (filter_layers dup_ordinal_layers) := by
  have he : ((filter_layers dup_ordinal_layers).map fun l => l.num) = [0, 0] := by
    norm_num [filter_layers, dup_ordinal_layers, plain_layer, zs_desc,
      bucket_slots, required_counts, derive_slots, derive_slots_from,
      slot_step, bucket, has_tool_changes, tool_change_of, is_tool_change,
      tag_bucket, tag_switch, tag_fill, List.insertionSort,
      List.orderedInsert, List.dedup, z_desc, num_asc, List.pwFilter,
      List.countP, List.countP.go, List.filter]
  refine ⟨he, fun h => ?_⟩
  have h2 : List.Pairwise (fun a b : Nat => a < b) [0, 0] :=
    he ▸ List.pairwise_map.mpr h
  exact absurd h2 (by decide)

/-!
## Header parsing and its two hard validations (`parse_header`)
-/

/-- A header annotation event: the already-tokenized form of the
`; key = value` comments that `parse_header` recognizes.  Only the two
validation-relevant keys are distinguished — `relE e` stands for
`use_relative_e_distances = <e>` and `layerHeight v` for
`layer_height = <v>` — since no other recognized annotation affects
whether header parsing succeeds; all others are `otherAnn`. -/
inductive HAnn where
  | relE (enabled : Bool)
  | layerHeight (v : ℚ)
  | otherAnn
deriving DecidableEq, Repr

/-- The two fatal errors `parse_header` can raise: the in-scan
`use_relative_e_distances` `ValueError` and the post-scan layer-height
`ValueError`. -/
inductive HeaderError where
  | relEDisabled
  | badLayerHeight
deriving DecidableEq, Repr

/-- The header attributes the two validations consult: `self.layer_height`
(`none` before any layer-height annotation is processed). -/
structure HeaderState where
  layer_height : Option ℚ := none
deriving DecidableEq, Repr

/-- The comment scan of `parse_header`: a `layer_height` annotation stores
its value, a disabled `use_relative_e_distances` annotation raises
immediately and aborts the scan (the attributes mutated so far survive on
the object), everything else leaves the state unchanged.  Returns the state
reached together with the raised error, if any. -/
def header_scan : HeaderState → List HAnn → HeaderState × Option HeaderError
  | s, [] => (s, none)
  | s, a :: rest =>
    match a with
    | .relE e => if e then header_scan s rest else (s, some .relEDisabled)
    | .layerHeight v => header_scan { s with layer_height := some v } rest
    | .otherAnn => header_scan s rest

/-- `PrusaSlic3rCodeFile.parse_header`: run the comment scan; an in-scan
error propagates; otherwise the single post-scan check
`self.layer_height != 0.2` raises the layer-height error. -/
def parse_header (anns : List HAnn) : HeaderState × Option HeaderError :=
  match header_scan {} anns with
  | (s, some e) => (s, some e)
  | (s, none) =>
      if s.layer_height = some (mkRat 1 5) then (s, none)
      else (s, some .badLayerHeight)

/-- Whether every relative-E annotation in the stream is enabled. -/
def all_rel_e_enabled (anns : List HAnn) : Bool :=
  anns.all fun a =>
    match a with
    | .relE e => e
    | _ => true

/-- The value of the last layer-height annotation of the stream, if any. -/
def last_layer_height (anns : List HAnn) : Option ℚ :=
  (anns.filterMap fun a =>
    match a with
    | .layerHeight v => some v
    | _ => none).getLast?

theorem header_scan_ok :
    ∀ (anns : List HAnn) (s : HeaderState), all_rel_e_enabled anns = true →
      (header_scan s anns).2 = none ∧
      (header_scan s anns).1.layer_height =
        (match last_layer_height anns with
         | some v => some v
         | none => s.layer_height)
  | [], _, _ => ⟨rfl, rfl⟩
  | .relE e :: rest, s, hall => by
    rw [all_rel_e_enabled, List.all_cons, Bool.and_eq_true] at hall
    have he : e = true := hall.1
    subst he
    unfold header_scan
    dsimp only
    rw [if_pos rfl]
    have ih := header_scan_ok rest s hall.2
    refine ⟨ih.1, ?_⟩
    rw [ih.2]
    rfl
  | .layerHeight v :: rest, s, hall => by
    rw [all_rel_e_enabled, List.all_cons, Bool.and_eq_true] at hall
    unfold header_scan
    dsimp only
    have ih := header_scan_ok rest { s with layer_height := some v } hall.2
    refine ⟨ih.1, ?_⟩
    rw [ih.2]
    have hcons : last_layer_height (HAnn.layerHeight v :: rest) =
        some ((last_layer_height rest).getD v) := by
      unfold last_layer_height
      rw [List.filterMap_cons]
      dsimp only
      rw [List.getLast?_cons]
    rw [hcons]
    rcases hlast : last_layer_height rest with _ | w
    · rfl
    · rfl
  | .otherAnn :: rest, s, hall => by
    rw [all_rel_e_enabled, List.all_cons, Bool.and_eq_true] at hall
    unfold header_scan
    dsimp only
    have ih := header_scan_ok rest s hall.2
    exact ⟨ih.1, by rw [ih.2]; rfl⟩

theorem header_scan_none_all :
    ∀ (anns : List HAnn) (s : HeaderState),
      (header_scan s anns).2 = none → all_rel_e_enabled anns = true
  | [], _, _ => rfl
  | .relE e :: rest, s, h => by
    unfold header_scan at h
    dsimp only at h
    cases e with
    | false =>
      rw [if_neg (by exact fun hc => Bool.noConfusion hc)] at h
      exact absurd h (by simp)
    | true =>
      rw [if_pos rfl] at h
      rw [all_rel_e_enabled, List.all_cons, Bool.and_eq_true]
      exact ⟨rfl, header_scan_none_all rest s h⟩
  | .layerHeight v :: rest, s, h => by
    unfold header_scan at h
    dsimp only at h
    rw [all_rel_e_enabled, List.all_cons, Bool.and_eq_true]
    exact ⟨rfl, header_scan_none_all rest _ h⟩
  | .otherAnn :: rest, s, h => by
    unfold header_scan at h
    dsimp only at h
    rw [all_rel_e_enabled, List.all_cons, Bool.and_eq_true]
    exact ⟨rfl, header_scan_none_all rest s h⟩

theorem header_scan_abort :
    ∀ (xs : List HAnn) (ys : List HAnn) (s : HeaderState),
      all_rel_e_enabled xs = true →
      header_scan s (xs ++ .relE false :: ys) =
        ((header_scan s xs).1, some .relEDisabled)
  | [], ys, s, _ => rfl
  | .relE e :: xs, ys, s, hall => by
    rw [all_rel_e_enabled, List.all_cons, Bool.and_eq_true] at hall
    have he : e = true := hall.1
    subst he
    rw [List.cons_append]
    unfold header_scan
    dsimp only
    rw [if_pos rfl, if_pos rfl]
    exact header_scan_abort xs ys s hall.2
  | .layerHeight v :: xs, ys, s, hall => by
    rw [all_rel_e_enabled, List.all_cons, Bool.and_eq_true] at hall
    rw [List.cons_append]
    unfold header_scan
    dsimp only
    exact header_scan_abort xs ys _ hall.2
  | .otherAnn :: xs, ys, s, hall => by
    rw [all_rel_e_enabled, List.all_cons, Bool.and_eq_true] at hall
    rw [List.cons_append]
    unfold header_scan
    dsimp only
    exact header_scan_abort xs ys s hall.2

/-- C5 (amended): among inputs all of whose relative-E annotations are
enabled, header parsing succeeds exactly when the last layer-height
annotation carries the single supported value 0.2; and for every input
whose last layer-height annotation is not 0.2 (or that has none at all),
header parsing raises a fatal error unconditionally. -/
theorem layer_height_boundary (anns : List HAnn) :
    (all_rel_e_enabled anns = true →
      ((parse_header anns).2 = none ↔
        last_layer_height anns = some (mkRat 1 5))) ∧
    (¬ last_layer_height anns = some (mkRat 1 5) →
      ¬ (parse_header anns).2 = none) := by
  constructor
  · intro hall
    obtain ⟨h2, hlh⟩ := header_scan_ok anns {} hall
    rcases hp : header_scan {} anns with ⟨s, err⟩
    rw [hp] at h2 hlh
    dsimp only at h2 hlh
    subst h2
    have hlh2 : s.layer_height = last_layer_height anns := by
      rw [hlh]
      rcases last_layer_height anns with _ | w
      · rfl
      · rfl
    have hph : parse_header anns =
        (if s.layer_height = some (mkRat 1 5) then (s, none)
         else (s, some .badLayerHeight)) := by
      unfold parse_header
      rw [hp]
    rw [hph]
    by_cases hv : s.layer_height = some (mkRat 1 5)
    · rw [if_pos hv]
      exact ⟨fun _ => hlh2 ▸ hv, fun _ => rfl⟩
    · rw [if_neg hv]
      constructor
      · exact fun hc => absurd hc (fun hc2 => Option.noConfusion hc2)
      · exact fun hlast => absurd (hlh2.trans hlast) hv
  · intro hne hc
    by_cases hall : all_rel_e_enabled anns = true
    · obtain ⟨h2, hlh⟩ := header_scan_ok anns {} hall
      rcases hp : header_scan {} anns with ⟨s, err⟩
      rw [hp] at h2 hlh
      dsimp only at h2 hlh
      subst h2
      have hlh2 : s.layer_height = last_layer_height anns := by
        rw [hlh]
        rcases last_layer_height anns with _ | w
        · rfl
        · rfl
      have hph : parse_header anns =
          (if s.layer_height = some (mkRat 1 5) then (s, none)
           else (s, some .badLayerHeight)) := by
        unfold parse_header
        rw [hp]
      rw [hph] at hc
      by_cases hv : s.layer_height = some (mkRat 1 5)
      · exact hne (hlh2.symm.trans hv)
      · rw [if_neg hv] at hc
        exact absurd hc (fun hc2 => Option.noConfusion hc2)
    · rcases hp : header_scan {} anns with ⟨s, err⟩
      rcases err with _ | e
      · exact hall (header_scan_none_all anns {} (by rw [hp]))
      · have hph : parse_header anns = (s, some e) := by
          unfold parse_header
          rw [hp]
        rw [hph] at hc
        exact absurd hc (fun hc2 => Option.noConfusion hc2)

/-- Stream whose layer-height annotation is the supported 0.2 but whose
relative-E annotation is disabled. -/
def good_height_bad_rel_e : List HAnn :=
  [.layerHeight (mkRat 1 5), .relE false]

/-- C5 (counterexample): an input whose layer-height annotation equals the
supported value 0.2 on which header parsing nevertheless raises a fatal
error (the disabled relative-E annotation), so success is not implied by
the layer-height value alone. -/
theorem layer_height_boundary_cex :
    last_layer_height good_height_bad_rel_e = some (mkRat 1 5) ∧
    ¬ (parse_header good_height_bad_rel_e).2 = none := by
  exact ⟨rfl, by decide⟩

/-- Witness for `layer_height_boundary`: its success direction on a stream
with relative-E enabled and layer height 0.2, and its failure direction on
a stream whose layer height is 0.3. -/
theorem layer_height_boundary_wit :
    ((parse_header [HAnn.relE true, HAnn.layerHeight (mkRat 1 5)]).2 = none ↔
      last_layer_height [HAnn.relE true, HAnn.layerHeight (mkRat 1 5)] =
        some (mkRat 1 5)) ∧
    ¬ (parse_header [HAnn.relE true, HAnn.layerHeight (mkRat 3 10)]).2 = none :=
  ⟨(layer_height_boundary [HAnn.relE true, HAnn.layerHeight (mkRat 1 5)]).1 rfl,
   (layer_height_boundary [HAnn.relE true, HAnn.layerHeight (mkRat 3 10)]).2
     (by decide)⟩

/-- C6 (amended): the layer-height validation is the only one performed
after the full header scan — once the scan finishes without raising, the
outcome is decided solely by the scanned `layer_height` attribute — while
the relative-E validation raises inline at the offending annotation,
aborting the scan so that the remaining header lines are never processed. -/
theorem header_checks_placement (xs ys anns : List HAnn) :
    (all_rel_e_enabled xs = true →
      parse_header (xs ++ .relE false :: ys) =
        ((header_scan {} xs).1, some .relEDisabled)) ∧
    (all_rel_e_enabled anns = true →
      ¬ (parse_header anns).2 = some .relEDisabled ∧
      ((parse_header anns).2 = some .badLayerHeight ↔
        ¬ (header_scan {} anns).1.layer_height = some (mkRat 1 5))) := by
  constructor
  · intro hall
    have hab := header_scan_abort xs ys {} hall
    unfold parse_header
    rw [hab]
  · intro hall
    obtain ⟨h2, _⟩ := header_scan_ok anns {} hall
    rcases hp : header_scan {} anns with ⟨s, err⟩
    rw [hp] at h2
    dsimp only at h2
    subst h2
    have hph : parse_header anns =
        (if s.layer_height = some (mkRat 1 5) then (s, none)
         else (s, some .badLayerHeight)) := by
      unfold parse_header
      rw [hp]
    rw [hph]
    dsimp only
    by_cases hv : s.layer_height = some (mkRat 1 5)
    · rw [if_pos hv]
      exact ⟨fun hc => Option.noConfusion hc,
        ⟨fun hc => absurd hc (fun hc2 => Option.noConfusion hc2),
         fun hc => absurd hv hc⟩⟩
    · rw [if_neg hv]
      exact ⟨fun hc => HeaderError.noConfusion (Option.some.inj hc),
        ⟨fun _ => hv, fun _ => rfl⟩⟩

/-- Stream with a disabled relative-E annotation followed by a
layer-height annotation. -/
def rel_e_then_height : List HAnn :=
  [.relE false, .layerHeight (mkRat 3 10)]

/-- C6 (counterexample): with a disabled relative-E annotation followed by
a layer-height annotation, the fatal relative-E error is raised while the
scanned `layer_height` attribute is still unset — the scan did not process
the remaining header line before failing, contradicting the claim that
both validations run only after the full header scan. -/
theorem header_checks_placement_cex :
    (parse_header rel_e_then_height).2 = some HeaderError.relEDisabled ∧
    (parse_header rel_e_then_height).1.layer_height = none := by
  exact ⟨rfl, rfl⟩

/-- Witness for `header_checks_placement`: the inline abort after one
unrecognized annotation, and the post-scan conjunct on a stream with
relative-E enabled and layer height 0.2. -/
theorem header_checks_placement_wit :
    (parse_header ([HAnn.otherAnn] ++ HAnn.relE false :: []) =
      ((header_scan {} [HAnn.otherAnn]).1, some HeaderError.relEDisabled)) ∧
    (¬ (parse_header [HAnn.relE true, HAnn.layerHeight (mkRat 1 5)]).2 =
        some HeaderError.relEDisabled ∧
      ((parse_header [HAnn.relE true, HAnn.layerHeight (mkRat 1 5)]).2 =
          some HeaderError.badLayerHeight ↔
        ¬ (header_scan {}
            [HAnn.relE true, HAnn.layerHeight (mkRat 1 5)]).1.layer_height =
          some (mkRat 1 5))) :=
  ⟨(header_checks_placement [HAnn.otherAnn] []
      [HAnn.relE true, HAnn.layerHeight (mkRat 1 5)]).1 rfl,
   (header_checks_placement [HAnn.otherAnn] []
      [HAnn.relE true, HAnn.layerHeight (mkRat 1 5)]).2 rfl⟩

/-!
## The first-layer tool-change normalizer (`parse_print_settings`)
-/

/-- The plain `TOOL CHANGE` comment line that the normalizer inserts. -/
def tower_comment_line : PLine := { cmd := none, comment := some .towerComment }

/-- The scan of the Slic3r-specific part of `parse_print_settings` over
the first layer's `read_lines()`, carrying the running line index: the
first line whose index exceeds the start-gcode end and whose command is a
tool change is deleted when it selects tool 0 (`delete_line`), and
otherwise gets the `TOOL CHANGE` comment inserted immediately before it
(`insert_line`); the scan then stops (`break`).  `delete_line` and
`insert_line` of the external `layer.py` are modelled from the spec as
index-based removal and insertion on the layer's line list. -/
def parse_print_settings_go (sg_end : Nat) : Nat → List PLine → List PLine
  | _, [] => []
  | idx, ln :: rest =>
    match tool_change_of ln with
    | some t =>
        if sg_end < idx then
          if t = 0 then rest
          else tower_comment_line :: ln :: rest
        else ln :: parse_print_settings_go sg_end (idx + 1) rest
    | none => ln :: parse_print_settings_go sg_end (idx + 1) rest

/-- The Slic3r-specific part of `PrusaSlic3rCodeFile.parse_print_settings`
acting on the first layer's line list, with the layer's
`start_gcode_end` passed explicitly. -/
def parse_print_settings (sg_end : Nat) (lines : List PLine) : List PLine :=
  parse_print_settings_go sg_end 0 lines

theorem parse_print_settings_go_spec (sg_end : Nat) :
    ∀ (lines : List PLine) (k i t : Nat), sg_end < k + i → i < lines.length →
      tool_change_of (lines.getD i default) = some t →
      (∀ j, sg_end < k + j → j < i → tool_change_of (lines.getD j default) = none) →
      parse_print_settings_go sg_end k lines =
        if t = 0 then lines.eraseIdx i
        else lines.insertIdx i tower_comment_line
  | [], _, i, _, _, hlen, _, _ => absurd hlen (by simp)
  | ln :: rest, k, 0, t, hgt, _, htc, _ => by
    rw [List.getD_cons_zero] at htc
    rw [Nat.add_zero] at hgt
    unfold parse_print_settings_go
    rw [htc]
    dsimp only
    rw [if_pos hgt]
    by_cases ht0 : t = 0
    · rw [if_pos ht0, if_pos ht0]
      rfl
    · rw [if_neg ht0, if_neg ht0]
      rfl
  | ln :: rest, k, i + 1, t, hgt, hlen, htc, hfirst => by
    rw [List.getD_cons_succ] at htc
    rw [List.length_cons] at hlen
    have hrec := parse_print_settings_go_spec sg_end rest (k + 1) i t (by omega)
      (by omega) htc
      (fun j h1 h2 => by
        have h3 := hfirst (j + 1) (by omega) (by omega)
        rwa [List.getD_cons_succ] at h3)
    unfold parse_print_settings_go
    rcases hh : tool_change_of ln with _ | t2
    · dsimp only
      rw [hrec]
      by_cases ht0 : t = 0
      · rw [if_pos ht0, if_pos ht0]
        rfl
      · rw [if_neg ht0, if_neg ht0]
        rfl
    · dsimp only
      have hk : ¬ sg_end < k := by
        intro hk
        have h0 := hfirst 0 (by omega) (by omega)
        rw [List.getD_cons_zero, hh] at h0
        exact Option.noConfusion h0
      rw [if_neg hk, hrec]
      by_cases ht0 : t = 0
      · rw [if_pos ht0, if_pos ht0]
        rfl
      · rw [if_neg ht0, if_neg ht0]
        rfl

/-- C8: in the first layer, among the lines whose index lies strictly past
the start-gcode region, the first command recognized as a tool change is
deleted when it selects tool 0 and is preceded by an inserted `TOOL
CHANGE` comment when it selects any other tool; either way the scan stops
at that first match, so no other line — in particular no later tool-change
line — is modified. -/
theorem first_tool_change_normalized (sg_end : Nat) (lines : List PLine)
    (i t : Nat) (hgt : sg_end < i) (hlen : i < lines.length)
    (htc : tool_change_of (lines.getD i default) = some t)
    (hfirst : ∀ j, sg_end < j → j < i →
      tool_change_of (lines.getD j default) = none) :
    parse_print_settings sg_end lines =
      if t = 0 then lines.eraseIdx i
      else lines.insertIdx i tower_comment_line :=
  parse_print_settings_go_spec sg_end lines 0 i t (by omega) hlen htc
    (fun j h1 h2 => hfirst j (by omega) h2)

/-- First-layer line list for the normalizer witness: a tool change inside
the start-gcode region, then the first eligible tool change (tool 2), then
a later tool change. -/
def first_layer_lines : List PLine :=
  [ { cmd := some (.toolChange 5), comment := none }
  , { cmd := some (.toolChange 2), comment := none }
  , { cmd := some (.toolChange 0), comment := none } ]

/-- Witness for `first_tool_change_normalized`: with the start-gcode region
ending at index 0, the eligible first tool change (tool 2, index 1) gets
the marker comment inserted before it and the rest is untouched. -/
theorem first_tool_change_normalized_wit :
    parse_print_settings 0 first_layer_lines =
      (if (2 : Nat) = 0 then first_layer_lines.eraseIdx 1
       else first_layer_lines.insertIdx 1 tower_comment_line) :=
  first_tool_change_normalized 0 first_layer_lines 1 2 (by decide) (by decide)
    (by decide)
    (fun j h1 h2 => absurd h1 (by omega))

end Filaswitch
